import Mathlib

/-!
Verification of the anomaly-scoring core of `apps/anomalist/detectors.py`.

The wide pandas dataframes are embedded as lists of row keys `(entity_name, year)`
together with association lists from integer variable ids to columns of nullable
rationals (`Option ℚ`, `none` modelling a pandas null/NaN).  The BARD distance itself
(`etl.data_helpers.misc.bard`) is not part of the sources and is modelled from the
spec, as documented on `Anomalist.bard`.
-/

namespace Anomalist

/-- A nullable numeric cell of an observation or score table (`none` models null/NaN). -/
abbrev Cell := Option ℚ

/-- A row key of the wide table: `(entity_name, year)`, as in `INDEX_COLUMNS`. -/
abbrev Key := String × Int

/-- Shallow embedding of the wide dataframes handled by `apps/anomalist/detectors.py`:
`keys` carries the `entity_name` and `year` columns row by row, and `cols` the numeric
data columns keyed by integer variable id, in column order. -/
structure WideDF where
  keys : List Key
  cols : List (Nat × List Cell)

/-- Column lookup `df[variable_id]`.  A column absent from the frame is modelled as
all-null (the claims only exercise frames whose mapped columns are present). -/
def WideDF.col (df : WideDF) (v : Nat) : List Cell :=
  match df.cols.find? (fun p => p.1 == v) with
  | some p => p.2
  | none => List.replicate df.keys.length none

/-- Well-formedness of a wide frame: every data column has one cell per row key. -/
def WideDF.WF (df : WideDF) : Prop :=
  ∀ p ∈ df.cols, p.2.length = df.keys.length

instance (df : WideDF) : Decidable df.WF := by
  unfold WideDF.WF
  infer_instance

/-- Linear-interpolation quantile of a list of rationals, as computed by
`pandas.Series.quantile` with the default `interpolation="linear"`: sort ascending and
read the value at fractional position `p * (n - 1)`. -/
def quantile (l : List ℚ) (p : ℚ) : ℚ :=
  let s := l.insertionSort (fun a b => a ≤ b)
  if s.length = 0 then 0
  else
    let h := p * ((s.length : ℚ) - 1)
    let i := (⌊h⌋).toNat
    let lo := s.getD i 0
    lo + (h - (i : ℚ)) * (s.getD (i + 1) lo - lo)

/-- `abs(series.dropna())` restricted to strictly positive values, as built inside
`estimate_bard_epsilon`: drop nulls, take absolute values, discard exact zeros. -/
def positiveValues (series : List Cell) : List ℚ :=
  ((series.filterMap id).map (fun x => |x|)).filter (fun x => decide (0 < x))

/-- `estimate_bard_epsilon`: the difference between the 95th and 5th percentile of the
positive absolute values, divided by 10.  `none` models the NaN that the quantile of an
empty series produces. -/
def estimate_bard_epsilon (series : List Cell) : Option ℚ :=
  let positive_values := positiveValues series
  if positive_values.isEmpty then none
  else some ((quantile positive_values (95 / 100) - quantile positive_values (5 / 100)) / 10)

/-- Modelled from the spec: the BARD distance (`etl.data_helpers.misc.bard`) is not under
the available sources.  Per the spec it is a bounded saturating function of
`|a - b| / eps` (the representative curve `|a - b| / (|a - b| + eps)` is used here); it
returns null whenever either input is null, and `eps ≤ 0` is a failure mode (modelled as
an undefined, i.e. null, result); a null `eps` (NaN) likewise propagates as null. -/
def bard (a b : Cell) (eps : Option ℚ) : Cell :=
  match a, b, eps with
  | some x, some y, some e => if e ≤ 0 then none else some (|x - y| / (|x - y| + e))
  | _, _, _ => none

/-- One row of the long-format score table after `fillna(0)`. -/
structure LongRow where
  entity_name : String
  year : Int
  variable_id : Nat
  anomaly_score : ℚ
deriving DecidableEq, Repr

/-- One melted row before `fillna(0)`: the score cell may still be null. -/
structure RawRow where
  entity_name : String
  year : Int
  variable_id : Nat
  anomaly_score : Cell
deriving DecidableEq, Repr

/-- `df_score.melt(id_vars=["entity_name", "year"], var_name="variable_id",
value_name="anomaly_score")`: stack the value columns in column order, keeping the row
keys alongside each cell. -/
def melt (df : WideDF) : List RawRow :=
  df.cols.flatMap (fun p => (df.keys.zip p.2).map (fun q => ⟨q.1.1, q.1.2, p.1, q.2⟩))

/-- `.fillna(0)` on the melted frame: only the score column is nullable. -/
def fillnaRows (rows : List RawRow) : List LongRow :=
  rows.map (fun r => ⟨r.entity_name, r.year, r.variable_id, r.anomaly_score.getD 0⟩)

/-- The descending score order of `sort_values("anomaly_score", ascending=False)`:
`r` comes no later than `s` when its score is at least as large. -/
def scoreDesc (r s : LongRow) : Prop :=
  s.anomaly_score ≤ r.anomaly_score

instance (r s : LongRow) : Decidable (scoreDesc r s) := by
  unfold scoreDesc
  infer_instance

instance : IsTotal LongRow scoreDesc :=
  ⟨fun r s => le_total s.anomaly_score r.anomaly_score⟩

instance : IsTrans LongRow scoreDesc :=
  ⟨fun _ _ _ h h2 => le_trans h2 h⟩

/-- Does `s` share its `(variable_id, entity_name)` pair with `r`? -/
def samePair (r s : LongRow) : Bool :=
  s.variable_id == r.variable_id && s.entity_name == r.entity_name

/-- The traversal behind `drop_duplicates(..., keep="first")`: keep a row only when its
`(variable_id, entity_name)` pair has not been seen on an earlier row. -/
def dropDupAux (seen : List (Nat × String)) : List LongRow → List LongRow
  | [] => []
  | r :: rs =>
    if (r.variable_id, r.entity_name) ∈ seen then dropDupAux seen rs
    else r :: dropDupAux ((r.variable_id, r.entity_name) :: seen) rs

/-- `drop_duplicates(subset=["variable_id", "entity_name"], keep="first")`. -/
def dropDupPairs (rows : List LongRow) : List LongRow :=
  dropDupAux [] rows

/-- `get_long_format_score_df`: melt, fill missing scores with 0, sort descending by
score, and keep the first row of every `(variable_id, entity_name)` pair.  The sort is
modelled as the deterministic stable sort; the tie order among equal scores is not part
of the available sources (it lives in the sorting routine of the dataframe library), and
the spec fixes it as "by original row order". -/
def get_long_format_score_df (df : WideDF) : List LongRow :=
  dropDupPairs ((fillnaRows (melt df)).insertionSort scoreDesc)

/-- The columns of the `np.zeros_like` score frame, restricted to `variable_ids`. -/
def zerosCols (variable_ids : List Nat) (n : Nat) : List (Nat × List Cell) :=
  variable_ids.map (fun v => (v, List.replicate n (some 0)))

/-- Whole-column assignment `frame[v] = c`: replace the column if present, else append. -/
def setCol (cols : List (Nat × List Cell)) (v : Nat) (c : List Cell) :
    List (Nat × List Cell) :=
  if cols.any (fun p => p.1 == v) then
    cols.map (fun p => if p.1 == v then (v, c) else p)
  else cols ++ [(v, c)]

/-- Masked assignment `frame.loc[mask, v] = 1`: set the masked cells of column `v` to 1.
When the column is absent, the dataframe library creates it with nulls outside the
masked rows. -/
def locSetOnes (cols : List (Nat × List Cell)) (v : Nat) (mask : List Bool) :
    List (Nat × List Cell) :=
  if cols.any (fun p => p.1 == v) then
    cols.map (fun p =>
      if p.1 == v then (v, List.zipWith (fun m c => if m then some 1 else c) mask p.2)
      else p)
  else cols ++ [(v, mask.map (fun m => if m then some 1 else none))]

/-- The row mask `df[variable_id_old].notnull() & df[variable_id_new].isnull()`. -/
def lostMask (df : WideDF) (v_old v_new : Nat) : List Bool :=
  List.zipWith (fun a b => a.isSome && b.isNone) (df.col v_old) (df.col v_new)

/-- `AnomalyUpgradeMissing.get_score_df`: start from a zero frame over `variable_ids`
and, for each `(old, new)` pair of the variable mapping, set to 1 the cells of the new
column at rows where the old column has data and the new one does not. -/
def upgradeMissing (df : WideDF) (variable_ids : List Nat) (mapping : List (Nat × Nat)) :
    WideDF :=
  { keys := df.keys
    cols := mapping.foldl (fun acc m => locSetOnes acc m.2 (lostMask df m.1 m.2))
      (zerosCols variable_ids df.keys.length) }

/-- The score column that `AnomalyUpgradeChange.get_score_df` assigns for one
`(old, new)` pair: element-wise BARD of the old column against the new one, with the
epsilon estimated from the new column. -/
def upgradeChangeCol (df : WideDF) (v_old v_new : Nat) : List Cell :=
  List.zipWith (fun a b => bard a b (estimate_bard_epsilon (df.col v_new)))
    (df.col v_old) (df.col v_new)

/-- `AnomalyUpgradeChange.get_score_df`: start from a zero frame over `variable_ids`
and, for each `(old, new)` pair of the variable mapping, assign the element-wise BARD
column for the new variable id. -/
def upgradeChange (df : WideDF) (variable_ids : List Nat) (mapping : List (Nat × Nat)) :
    WideDF :=
  { keys := df.keys
    cols := mapping.foldl (fun acc m => setCol acc m.2 (upgradeChangeCol df m.1 m.2))
      (zerosCols variable_ids df.keys.length) }

/-- `series.shift()`: push every value one row down, null at the first row. -/
def shiftCells (l : List Cell) : List Cell :=
  (none :: l).dropLast

/-- The entity column shifted one row down, null at the first row. -/
def shiftEntities (l : List String) : List (Option String) :=
  (none :: l.map some).dropLast

/-- `df["entity_name"] != df["entity_name"].shift()`: true exactly at row 0 and at each
row whose entity differs from the previous row's entity. -/
def boundaryMask (keys : List Key) : List Bool :=
  List.zipWith (fun e p => decide (some e ≠ p)) (keys.map Prod.fst)
    (shiftEntities (keys.map Prod.fst))

/-- One score column of `AnomalyTimeChange.get_score_df`: BARD of the series against its
own shift (`bard(series, series.shift(), eps).fillna(0)`), then zeroed at the first row
of every entity block. -/
def timeChangeCol (df : WideDF) (v : Nat) : List Cell :=
  let series := df.col v
  let eps := estimate_bard_epsilon series
  let filled := (List.zipWith (fun a b => bard a b eps) series (shiftCells series)).map
    (fun c => some (c.getD 0))
  List.zipWith (fun m c => if m then some 0 else c) (boundaryMask df.keys) filled

/-- The order `sort_values(by=INDEX_COLUMNS)` sorts with: lexicographic on
`(entity_name, year)`.  String comparison is spelled on the underlying character
lists, which is definitionally the standard codepoint-lexicographic string order. -/
def keyLe (a b : Key) : Prop :=
  a.1.data < b.1.data ∨ (a.1 = b.1 ∧ a.2 ≤ b.2)

instance (a b : Key) : Decidable (keyLe a b) := by
  unfold keyLe
  infer_instance

/-- `keyLe` lifted to index-tagged rows: the index plays no role in the comparison. -/
def rowKeyLe (a b : Nat × Key) : Prop :=
  keyLe a.2 b.2

instance (a b : Nat × Key) : Decidable (rowKeyLe a b) := by
  unfold rowKeyLe
  infer_instance

/-- The sanity check `(df.sort_values(by=INDEX_COLUMNS).index == df.index).all()` of
`AnomalyTimeChange.get_score_df`.  Distinct rows carry distinct positional indices, so
comparing the index sequence of the sorted frame with the original index sequence is
comparing the stably key-sorted, index-tagged rows with the original ones. -/
def sortedCheck (keys : List Key) : Bool :=
  decide (keys.enum.insertionSort rowKeyLe = keys.enum)

/-- The assertion message of `AnomalyTimeChange.get_score_df`. -/
def sortErrMsg : String :=
  "The function that detects abrupt time changes assumes the data is sorted by entity_name and year. But this is not the case. Either ensure the data is sorted, or fix the function."

/-- `AnomalyTimeChange.get_score_df`: assert that the rows are sorted by
`(entity_name, year)` (the `assert` raising `AssertionError` is modelled as `.error`),
then score each column of `variable_ids`. -/
def timeChange (df : WideDF) (variable_ids : List Nat) : Except String WideDF :=
  if sortedCheck df.keys then
    .ok { keys := df.keys, cols := variable_ids.map (fun v => (v, timeChangeCol df v)) }
  else .error sortErrMsg

end Anomalist

namespace Anomalist

/-! ### Quantile evaluation helpers -/

theorem quantile_singleton (x p : ℚ) : quantile [x] p = x := by
  simp [quantile]

/-! ### The epsilon estimator (claims C3 and C7) -/

unseal Rat.add Rat.mul Rat.sub Rat.inv Rat.ofScientific in
/-- C3 counterexample: on a series whose filtered positive values are the single value 5
(after dropping the null and the zero), `estimate_bard_epsilon` silently returns 0 — it
does not signal any failure condition, and no `InsufficientDataError` exists in the
code. -/
theorem epsilon_single_value_returns_zero :
    estimate_bard_epsilon [some 5, some 0, none] = some 0 := by
  decide

/-- C3 (amended): when fewer than 2 non-zero absolute values remain after dropping nulls
and zeros, `estimate_bard_epsilon` does not raise: it returns 0 when exactly one value
remains (both quantiles coincide at that value), and an undefined NaN result (modelled
as `none`) when no value remains. -/
theorem epsilon_few_values_degenerate (series : List Cell)
    (h : (positiveValues series).length ≤ 1) :
    estimate_bard_epsilon series
      = if (positiveValues series).isEmpty then none else some 0 := by
  rcases hpv : positiveValues series with _ | ⟨x, t⟩
  · simp [estimate_bard_epsilon, hpv]
  · rcases t with _ | ⟨y, t2⟩
    · simp [estimate_bard_epsilon, hpv, quantile_singleton]
    · rw [hpv] at h
      simp at h

theorem epsilon_few_values_degenerate_witness :
    estimate_bard_epsilon [some 5] = some 0 := by
  have h := epsilon_few_values_degenerate [some 5] (by decide)
  have e : (positiveValues [some 5]).isEmpty = false := by decide
  rw [e] at h
  simpa using h

/-- C7: for every series with at least 2 non-zero absolute values left after dropping
nulls and discarding exact zeros, `estimate_bard_epsilon` returns the difference between
the 95th and the 5th linear-interpolation percentile of those absolute values, divided
by 10. -/
theorem epsilon_quantile_formula (series : List Cell)
    (h : 2 ≤ (positiveValues series).length) :
    estimate_bard_epsilon series
      = some ((quantile (positiveValues series) (95 / 100)
          - quantile (positiveValues series) (5 / 100)) / 10) := by
  have hne : (positiveValues series).isEmpty = false := by
    cases hpv : positiveValues series with
    | nil => rw [hpv] at h; simp at h
    | cons a t => rfl
  simp [estimate_bard_epsilon, hne]

theorem epsilon_quantile_formula_witness :
    2 ≤ (positiveValues [some 1, some 2]).length ∧
    estimate_bard_epsilon [some 1, some 2]
      = some ((quantile (positiveValues [some 1, some 2]) (95 / 100)
          - quantile (positiveValues [some 1, some 2]) (5 / 100)) / 10) :=
  ⟨by decide, epsilon_quantile_formula [some 1, some 2] (by decide)⟩

end Anomalist

namespace Anomalist

/-! ### The score reducer (claims C1 and C8) -/

/-- The `(variable_id, entity_name)` pair test used by `drop_duplicates`. -/
def pairPred (v : Nat) (e : String) (r : LongRow) : Bool :=
  r.variable_id == v && r.entity_name == e

/-- The rows of the filled long-format score table that belong to one
`(variable_id, entity_name)` pair. -/
def pairRows (df : WideDF) (v : Nat) (e : String) : List LongRow :=
  (fillnaRows (melt df)).filter (pairPred v e)

theorem pairPred_iff (v : Nat) (e : String) (r : LongRow) :
    pairPred v e r = true ↔ r.variable_id = v ∧ r.entity_name = e := by
  simp [pairPred]

/-- `dropDupAux` keeps, of each pair class not yet seen, exactly its first row. -/
theorem filter_dropDupAux (v : Nat) (e : String) (l : List LongRow) :
    ∀ seen : List (Nat × String),
      (dropDupAux seen l).filter (pairPred v e)
        = if (v, e) ∈ seen then [] else (l.filter (pairPred v e)).take 1 := by
  induction l with
  | nil => intro seen; simp [dropDupAux]
  | cons r rs ih =>
    intro seen
    by_cases hseen : (r.variable_id, r.entity_name) ∈ seen
    · rw [show dropDupAux seen (r :: rs) = dropDupAux seen rs from by
        simp only [dropDupAux]; rw [if_pos hseen]]
      rw [ih seen]
      by_cases hv : (v, e) ∈ seen
      · rw [if_pos hv, if_pos hv]
      · rw [if_neg hv, if_neg hv]
        have hp : ¬ pairPred v e r = true := by
          intro hp
          rcases (pairPred_iff v e r).1 hp with ⟨h1, h2⟩
          exact hv (by rw [← h1, ← h2]; exact hseen)
        rw [List.filter_cons_of_neg hp]
    · rw [show dropDupAux seen (r :: rs)
          = r :: dropDupAux ((r.variable_id, r.entity_name) :: seen) rs from by
        simp only [dropDupAux]; rw [if_neg hseen]]
      by_cases hp : pairPred v e r = true
      · rcases (pairPred_iff v e r).1 hp with ⟨h1, h2⟩
        have hv : ¬ (v, e) ∈ seen := by rw [← h1, ← h2]; exact hseen
        rw [if_neg hv]
        rw [List.filter_cons_of_pos hp, ih ((r.variable_id, r.entity_name) :: seen)]
        rw [if_pos (by rw [← h1, ← h2]; exact List.mem_cons_self _ _)]
        rw [List.filter_cons_of_pos hp]
        simp
      · rw [List.filter_cons_of_neg hp, ih ((r.variable_id, r.entity_name) :: seen)]
        have hne2 : ((v, e) : Nat × String) ≠ (r.variable_id, r.entity_name) := by
          intro hcontra
          apply hp
          rw [pairPred_iff]
          exact ⟨(Prod.ext_iff.mp hcontra).1.symm, (Prod.ext_iff.mp hcontra).2.symm⟩
        by_cases hv : (v, e) ∈ seen
        · rw [if_pos (List.mem_cons_of_mem _ hv), if_pos hv]
        · rw [if_neg (by simp [List.mem_cons, hne2, hv]), if_neg hv,
            List.filter_cons_of_neg hp]

/-- The reducer restricted to one pair is the first row of that pair's rows in the
descending-sorted long table. -/
theorem reducer_filter_eq (df : WideDF) (v : Nat) (e : String) :
    (get_long_format_score_df df).filter (pairPred v e)
      = (((fillnaRows (melt df)).insertionSort scoreDesc).filter (pairPred v e)).take 1 := by
  unfold get_long_format_score_df dropDupPairs
  rw [filter_dropDupAux]
  simp

theorem sorted_filter_perm (df : WideDF) (v : Nat) (e : String) :
    List.Perm (((fillnaRows (melt df)).insertionSort scoreDesc).filter (pairPred v e))
      (pairRows df v e) :=
  (List.perm_insertionSort scoreDesc _).filter _

/-- The melted table has one row per cell of the wide score table. -/
theorem length_melt (df : WideDF) (hWF : df.WF) :
    (melt df).length = df.cols.length * df.keys.length := by
  unfold melt
  have h : ∀ cols : List (Nat × List Cell), (∀ p ∈ cols, p.2.length = df.keys.length) →
      (cols.flatMap (fun p => (df.keys.zip p.2).map
        (fun q => (⟨q.1.1, q.1.2, p.1, q.2⟩ : RawRow)))).length
        = cols.length * df.keys.length := by
    intro cols
    induction cols with
    | nil => intro _; simp
    | cons p t ih =>
      intro hc
      simp only [List.flatMap_cons, List.length_append, List.length_map, List.length_zip]
      rw [ih (fun q hq => hc q (List.mem_cons_of_mem _ hq))]
      rw [hc p (List.mem_cons_self _ _)]
      simp only [Nat.min_self, List.length_cons]
      rw [Nat.succ_mul]
      omega
  exact h df.cols hWF

/-- C1: the reducer melts the wide score table into one row per (entity, time,
indicator) cell, fills missing scores with 0, and keeps for each
`(variable_id, entity_name)` pair exactly one row, which is a row of that pair carrying
the pair's maximum anomaly score. -/
theorem reducer_keeps_max_per_pair (df : WideDF) (v : Nat) (e : String)
    (hWF : df.WF) (hne : pairRows df v e ≠ []) :
    (melt df).length = df.cols.length * df.keys.length ∧
    ∃ r, (get_long_format_score_df df).filter (pairPred v e) = [r]
      ∧ r ∈ pairRows df v e
      ∧ ∀ s ∈ pairRows df v e, s.anomaly_score ≤ r.anomaly_score := by
  refine ⟨length_melt df hWF, ?_⟩
  have hperm := sorted_filter_perm df v e
  have hsor : ((fillnaRows (melt df)).insertionSort scoreDesc).Sorted scoreDesc :=
    List.sorted_insertionSort scoreDesc _
  have hsf := hsor.filter (pairPred v e)
  cases hcase : ((fillnaRows (melt df)).insertionSort scoreDesc).filter (pairPred v e) with
  | nil =>
    exfalso
    apply hne
    rw [hcase] at hperm
    exact hperm.nil_eq.symm
  | cons r t =>
    refine ⟨r, ?_, ?_, ?_⟩
    · rw [reducer_filter_eq, hcase]
      simp
    · have hr : r ∈ r :: t := List.mem_cons_self _ _
      rw [← hcase] at hr
      exact hperm.mem_iff.mp hr
    · intro s hs
      have hs2 : s ∈ r :: t := by
        rw [← hcase]
        exact hperm.mem_iff.mpr hs
      rcases List.mem_cons.mp hs2 with h | h
      · rw [h]
      · rw [hcase] at hsf
        exact List.rel_of_sorted_cons hsf s h

def dfEx : WideDF :=
  ⟨[("A", 1), ("A", 2), ("A", 3), ("A", 4), ("A", 5)],
    [(7, [some 0, some (2/10), some (9/10), some (1/10), some 0])]⟩

unseal Rat.add Rat.mul Rat.sub Rat.inv Rat.ofScientific in
theorem reducer_keeps_max_per_pair_witness :
    get_long_format_score_df dfEx = [⟨"A", 3, 7, 9/10⟩] ∧
    ((melt dfEx).length = dfEx.cols.length * dfEx.keys.length ∧
      ∃ r, (get_long_format_score_df dfEx).filter (pairPred 7 "A") = [r]
        ∧ r ∈ pairRows dfEx 7 "A"
        ∧ ∀ s ∈ pairRows dfEx 7 "A", s.anomaly_score ≤ r.anomaly_score) :=
  ⟨by decide, reducer_keeps_max_per_pair dfEx 7 "A" (by decide) (by decide)⟩

/-- C8: for every pair present in the melted table the reducer emits exactly one
record, and when all of a pair's filled scores are 0 that record is precisely the
pair's first row (the deterministic tie-break), at score 0. -/
theorem reducer_one_record_per_pair (df : WideDF) (v : Nat) (e : String)
    (hne : pairRows df v e ≠ []) :
    ((get_long_format_score_df df).filter (pairPred v e)).length = 1 ∧
    ((∀ s ∈ pairRows df v e, s.anomaly_score = 0) →
      (get_long_format_score_df df).filter (pairPred v e) = (pairRows df v e).take 1) := by
  have hperm := sorted_filter_perm df v e
  constructor
  · cases hcase : ((fillnaRows (melt df)).insertionSort scoreDesc).filter (pairPred v e) with
    | nil =>
      exfalso
      apply hne
      rw [hcase] at hperm
      exact hperm.nil_eq.symm
    | cons r t =>
      rw [reducer_filter_eq, hcase]
      simp
  · intro hzero
    have hA : (pairRows df v e).Pairwise scoreDesc := by
      apply List.pairwise_of_forall_mem_list
      intro a ha b hb
      show b.anomaly_score ≤ a.anomaly_score
      rw [hzero b hb, hzero a ha]
    have hsubl : List.Sublist (pairRows df v e) (fillnaRows (melt df)) :=
      List.filter_sublist _
    have hstab : List.Sublist (pairRows df v e)
        ((fillnaRows (melt df)).insertionSort scoreDesc) :=
      List.sublist_insertionSort hA hsubl
    have hidem : (pairRows df v e).filter (pairPred v e) = pairRows df v e := by
      unfold pairRows
      rw [List.filter_filter]
      simp only [Bool.and_self]
    have hsub2 : List.Sublist (pairRows df v e)
        (((fillnaRows (melt df)).insertionSort scoreDesc).filter (pairPred v e)) := by
      have h2 := hstab.filter (pairPred v e)
      rwa [hidem] at h2
    have heq : pairRows df v e
        = ((fillnaRows (melt df)).insertionSort scoreDesc).filter (pairPred v e) :=
      hsub2.eq_of_length (by rw [hperm.length_eq])
    rw [reducer_filter_eq, ← heq]

def dfZ : WideDF :=
  ⟨[("A", 1), ("A", 2), ("B", 1)],
    [(7, [some 0, some 0, some 5]), (8, [none, some 0, none])]⟩

theorem reducer_one_record_per_pair_witness :
    ((get_long_format_score_df dfZ).filter (pairPred 7 "A")).length = 1 ∧
    (get_long_format_score_df dfZ).filter (pairPred 7 "A") = (pairRows dfZ 7 "A").take 1 := by
  have h := reducer_one_record_per_pair dfZ 7 "A" (by decide)
  exact ⟨h.1, h.2 (by decide)⟩

end Anomalist

namespace Anomalist

/-! ### The sortedness precondition of the time-change detector (claim C4) -/

/-- `keyLe` spelled with the string linear order. -/
theorem keyLe_iff (a b : Key) : keyLe a b ↔ a.1 < b.1 ∨ (a.1 = b.1 ∧ a.2 ≤ b.2) := by
  have hs : a.1.data < b.1.data ↔ a.1 < b.1 := (String.lt_iff_toList_lt).symm
  unfold keyLe
  rw [hs]

theorem keyLe_trans (a b c : Key) (h1 : keyLe a b) (h2 : keyLe b c) : keyLe a c := by
  rw [keyLe_iff] at *
  rcases h1 with h1 | ⟨h1e, h1y⟩ <;> rcases h2 with h2 | ⟨h2e, h2y⟩
  · exact Or.inl (lt_trans h1 h2)
  · exact Or.inl (h2e ▸ h1)
  · exact Or.inl (h1e ▸ h2)
  · exact Or.inr ⟨h1e.trans h2e, le_trans h1y h2y⟩

theorem keyLe_total (a b : Key) : keyLe a b ∨ keyLe b a := by
  rw [keyLe_iff, keyLe_iff]
  rcases lt_trichotomy a.1 b.1 with h | h | h
  · exact Or.inl (Or.inl h)
  · rcases le_total a.2 b.2 with h2 | h2
    · exact Or.inl (Or.inr ⟨h, h2⟩)
    · exact Or.inr (Or.inr ⟨h.symm, h2⟩)
  · exact Or.inr (Or.inl h)

instance : IsTotal (Nat × Key) rowKeyLe :=
  ⟨fun a b => keyLe_total a.2 b.2⟩

instance : IsTrans (Nat × Key) rowKeyLe :=
  ⟨fun a b c => keyLe_trans a.2 b.2 c.2⟩

/-- The index-comparison sanity check passes exactly on key lists that are already
sorted by `(entity_name, year)`. -/
theorem sortedCheck_iff (keys : List Key) :
    sortedCheck keys = true ↔ keys.Pairwise keyLe := by
  unfold sortedCheck
  rw [decide_eq_true_iff]
  constructor
  · intro h
    have hs : (keys.enum.insertionSort rowKeyLe).Pairwise rowKeyLe :=
      List.sorted_insertionSort rowKeyLe _
    rw [h] at hs
    rw [← List.enum_map_snd keys]
    exact List.pairwise_map.mpr (hs.imp (fun h => h))
  · intro h
    apply List.Sorted.insertionSort_eq
    have h2 : (keys.enum.map Prod.snd).Pairwise keyLe := by
      rw [List.enum_map_snd]
      exact h
    exact (List.pairwise_map.mp h2).imp (fun h => h)

/-- C4: the time-discontinuity detector fails with its sortedness assertion message on
every table whose rows are not sorted ascending by `(entity_name, year)`, before any
score is computed; on every sorted table it raises no error and returns a score table
whose rows are the input rows in their original order (it never re-sorts). -/
theorem time_change_sortedness_precondition (df : WideDF) (variable_ids : List Nat) :
    (df.keys.Pairwise keyLe →
      ∃ out, timeChange df variable_ids = Except.ok out ∧ out.keys = df.keys) ∧
    (¬ df.keys.Pairwise keyLe →
      timeChange df variable_ids = Except.error sortErrMsg) := by
  constructor
  · intro h
    refine ⟨⟨df.keys, variable_ids.map (fun v => (v, timeChangeCol df v))⟩, ?_, rfl⟩
    unfold timeChange
    rw [if_pos ((sortedCheck_iff df.keys).mpr h)]
  · intro h
    unfold timeChange
    rw [if_neg (fun hc => h ((sortedCheck_iff df.keys).mp hc))]

def dfU : WideDF := ⟨[("B", 1), ("A", 1)], [(7, [some 1, some 2])]⟩

theorem time_change_sortedness_precondition_witness :
    (∃ out, timeChange dfZ [7, 8] = Except.ok out ∧ out.keys = dfZ.keys) ∧
    timeChange dfU [7] = Except.error sortErrMsg :=
  ⟨(time_change_sortedness_precondition dfZ [7, 8]).1 (by decide),
   (time_change_sortedness_precondition dfU [7]).2 (by decide)⟩

end Anomalist

namespace Anomalist

/-! ### The time-discontinuity detector (claims C2 and C10) -/

theorem find?_map_pairs (vids : List Nat) (f : Nat → List Cell) (v : Nat) (hv : v ∈ vids) :
    (vids.map (fun u => (u, f u))).find? (fun p => p.1 == v) = some (v, f v) := by
  induction vids with
  | nil => cases hv
  | cons u t ih =>
    rw [List.map_cons]
    by_cases h : u = v
    · subst h
      rw [List.find?_cons_of_pos _ (by simp)]
    · rw [List.find?_cons_of_neg _ (by simp [h])]
      exact ih ((List.mem_cons.mp hv).resolve_left (fun he => h he.symm))

/-- Column lookup in a frame whose columns are one entry per variable id. -/
theorem col_mk_map (keys : List Key) (vids : List Nat) (f : Nat → List Cell) (v : Nat)
    (hv : v ∈ vids) :
    (WideDF.mk keys (vids.map (fun u => (u, f u)))).col v = f v := by
  unfold WideDF.col
  rw [find?_map_pairs vids f v hv]

theorem length_col (df : WideDF) (hWF : df.WF) (v : Nat) :
    (df.col v).length = df.keys.length := by
  unfold WideDF.col
  split
  next p hp => exact hWF p (List.mem_of_find?_eq_some hp)
  next => simp

theorem exists_of_mem_zipWith {α β γ : Type} {f : α → β → γ} {x : γ} :
    ∀ {as : List α} {bs : List β}, x ∈ List.zipWith f as bs
      → ∃ a b, a ∈ as ∧ b ∈ bs ∧ x = f a b := by
  intro as
  induction as with
  | nil => intro bs h; simp at h
  | cons a t ih =>
    intro bs h
    cases bs with
    | nil => simp at h
    | cons b bt =>
      rw [List.zipWith_cons_cons] at h
      rcases List.mem_cons.mp h with h | h
      · exact ⟨a, b, List.mem_cons_self _ _, List.mem_cons_self _ _, h⟩
      · rcases ih h with ⟨a2, b2, ha, hb, he⟩
        exact ⟨a2, b2, List.mem_cons_of_mem _ ha, List.mem_cons_of_mem _ hb, he⟩

/-- The entity-boundary mask is true at row 0. -/
theorem boundaryMask_zero (keys : List Key) (h : 0 < keys.length) :
    (boundaryMask keys)[0]? = some true := by
  unfold boundaryMask shiftEntities
  rw [List.getElem?_zipWith]
  rw [List.getElem?_dropLast]
  rw [if_pos (by simp; omega)]
  rw [List.getElem?_map, List.getElem?_eq_getElem h]
  simp

/-- Past row 0, the entity-boundary mask compares the row's entity with the previous
row's entity. -/
theorem boundaryMask_succ (keys : List Key) (j : Nat) (hj : j + 1 < keys.length) :
    (boundaryMask keys)[j + 1]?
      = some (decide ((keys[j + 1]).1 ≠ (keys[j]).1)) := by
  unfold boundaryMask shiftEntities
  rw [List.getElem?_zipWith]
  rw [List.getElem?_dropLast]
  rw [if_pos (by simp; omega)]
  rw [List.getElem?_cons_succ]
  rw [List.getElem?_map, List.getElem?_map, List.getElem?_map]
  rw [List.getElem?_eq_getElem hj, List.getElem?_eq_getElem (by omega : j < keys.length)]
  simp

/-- C2: on a sorted table the time-discontinuity detector scores 0 at the first row of
every entity block — at row 0, and at every row whose `entity_name` differs from the
previous row's — for every requested variable id, regardless of the values. -/
theorem time_change_zero_at_entity_start (df : WideDF) (variable_ids : List Nat)
    (hWF : df.WF) (hs : df.keys.Pairwise keyLe)
    (v : Nat) (hv : v ∈ variable_ids) (i : Nat) (hi : i < df.keys.length)
    (hb : i = 0 ∨ (df.keys[i]).1 ≠ (df.keys[i - 1]).1) :
    ∃ out, timeChange df variable_ids = Except.ok out ∧
      (out.col v).getD i none = some 0 := by
  refine ⟨⟨df.keys, variable_ids.map (fun u => (u, timeChangeCol df u))⟩, ?_, ?_⟩
  · unfold timeChange
    rw [if_pos ((sortedCheck_iff df.keys).mpr hs)]
  · have hcol : (WideDF.mk df.keys (variable_ids.map (fun u => (u, timeChangeCol df u)))).col v
        = timeChangeCol df v := col_mk_map _ _ _ v hv
    rw [hcol]
    have hser : (df.col v).length = df.keys.length := length_col df hWF v
    have hmask : (boundaryMask df.keys)[i]? = some true := by
      by_cases h0 : i = 0
      · subst h0
        exact boundaryMask_zero df.keys (by omega)
      · obtain ⟨j, rfl⟩ := Nat.exists_eq_succ_of_ne_zero h0
        rw [boundaryMask_succ df.keys j (by omega)]
        have hb2 : (df.keys[j + 1]).1 ≠ (df.keys[j]).1 := by
          rcases hb with h | h
          · exact absurd h h0
          · exact h
        simp [hb2]
    have hfl : ((List.zipWith (fun a b => bard a b (estimate_bard_epsilon (df.col v)))
        (df.col v) (shiftCells (df.col v))).map (fun c => some (c.getD 0))).length
        = df.keys.length := by
      simp [shiftCells, hser]
    obtain ⟨c, hc⟩ : ∃ c, ((List.zipWith (fun a b => bard a b (estimate_bard_epsilon (df.col v)))
        (df.col v) (shiftCells (df.col v))).map (fun c => some (c.getD 0)))[i]? = some c :=
      ⟨_, List.getElem?_eq_getElem (by rw [hfl]; exact hi)⟩
    unfold timeChangeCol
    rw [List.getD_eq_getElem?_getD, List.getElem?_zipWith, hmask, hc]
    simp

def dfT : WideDF :=
  ⟨[("A", 1), ("A", 2), ("A", 3), ("A", 4), ("B", 1), ("B", 2)],
    [(7, [some 10, some 10, some 10, some 1000, some 5, some 6])]⟩

unseal Rat.add Rat.mul Rat.sub Rat.inv Rat.ofScientific in
theorem time_change_zero_at_entity_start_witness :
    (∃ out, timeChange dfT [7] = Except.ok out ∧ (out.col 7).getD 0 none = some 0) ∧
    (∃ out, timeChange dfT [7] = Except.ok out ∧ (out.col 7).getD 4 none = some 0) ∧
    (timeChange dfT [7]).toOption.map (fun o => (o.col 7).getD 3 none)
      = some (some (39600 / 42589)) ∧ (1 : ℚ) / 2 < 39600 / 42589 :=
  ⟨time_change_zero_at_entity_start dfT [7] (by decide) (by decide) 7 (by decide) 0
      (by decide) (Or.inl rfl),
   time_change_zero_at_entity_start dfT [7] (by decide) (by decide) 7 (by decide) 4
      (by decide) (Or.inr (by decide)),
   by decide, by decide⟩

/-- C10: on a sorted table every score cell the time-discontinuity detector returns is
non-null: the `fillna(0)` step replaces every null element-wise BARD result — including
rows where exactly one of the two adjacent values is null — and the boundary rows are
overwritten with 0, so no null survives in any returned column. -/
theorem time_change_scores_never_null (df : WideDF) (variable_ids : List Nat)
    (hs : df.keys.Pairwise keyLe) :
    ∃ out, timeChange df variable_ids = Except.ok out ∧
      ∀ p ∈ out.cols, ∀ c ∈ p.2, c.isSome := by
  refine ⟨⟨df.keys, variable_ids.map (fun u => (u, timeChangeCol df u))⟩, ?_, ?_⟩
  · unfold timeChange
    rw [if_pos ((sortedCheck_iff df.keys).mpr hs)]
  · intro p hp c hc
    rcases List.mem_map.mp hp with ⟨u, hu, rfl⟩
    simp only [timeChangeCol] at hc
    rcases exists_of_mem_zipWith hc with ⟨m, fc, hm, hfc, rfl⟩
    rcases List.mem_map.mp hfc with ⟨raw, hraw, rfl⟩
    cases m <;> simp

theorem time_change_scores_never_null_witness :
    ∃ out, timeChange dfT [7] = Except.ok out ∧
      ∀ p ∈ out.cols, ∀ c ∈ p.2, c.isSome :=
  time_change_scores_never_null dfT [7] (by decide)

end Anomalist

namespace Anomalist

/-! ### The upgrade-change detector (claims C5 and C9) -/

theorem bard_none_left (b : Cell) (eps : Option ℚ) : bard none b eps = none := by
  cases b <;> cases eps <;> rfl

theorem bard_none_right (a : Cell) (eps : Option ℚ) : bard a none eps = none := by
  cases a <;> cases eps <;> rfl

theorem find?_map_replace (v : Nat) (c : List Cell) :
    ∀ cols : List (Nat × List Cell), cols.any (fun p => p.1 == v) = true →
      (cols.map (fun p => if p.1 == v then (v, c) else p)).find? (fun p => p.1 == v)
        = some (v, c) := by
  intro cols
  induction cols with
  | nil => intro h; simp at h
  | cons q t ih =>
    intro h
    rw [List.map_cons]
    by_cases hq : q.1 = v
    · have h1 : (q.1 == v) = true := by simp [hq]
      rw [if_pos h1, List.find?_cons_of_pos _ (by simp)]
    · have h1 : (q.1 == v) = false := by simp [hq]
      rw [if_neg (by simp [h1]), List.find?_cons_of_neg _ (by simp [h1])]
      apply ih
      rw [List.any_cons] at h
      simpa [h1] using h

theorem find?_setCol_self (cols : List (Nat × List Cell)) (v : Nat) (c : List Cell) :
    (setCol cols v c).find? (fun p => p.1 == v) = some (v, c) := by
  unfold setCol
  by_cases h : cols.any (fun p => p.1 == v)
  · rw [if_pos h]
    exact find?_map_replace v c cols h
  · rw [if_neg h, List.find?_append]
    have hn : cols.find? (fun p => p.1 == v) = none := by
      rw [List.find?_eq_none]
      intro x hx hpx
      exact h (List.any_eq_true.mpr ⟨x, hx, hpx⟩)
    rw [hn]
    simp

theorem find?_setCol_ne (cols : List (Nat × List Cell)) (v w : Nat) (c : List Cell)
    (hvw : v ≠ w) :
    (setCol cols v c).find? (fun p => p.1 == w) = cols.find? (fun p => p.1 == w) := by
  unfold setCol
  by_cases h : cols.any (fun p => p.1 == v)
  · rw [if_pos h]
    clear h
    induction cols with
    | nil => rfl
    | cons q t ih =>
      rw [List.map_cons]
      by_cases hq : q.1 = v
      · have h1 : (q.1 == v) = true := by simp [hq]
        rw [if_pos h1, List.find?_cons_of_neg _ (by simp [hvw]),
          List.find?_cons_of_neg _ (by simp [hq, hvw])]
        exact ih
      · have h1 : (q.1 == v) = false := by simp [hq]
        rw [if_neg (by simp [h1])]
        by_cases hw : q.1 = w
        · rw [List.find?_cons_of_pos _ (by simp [hw]), List.find?_cons_of_pos _ (by simp [hw])]
        · rw [List.find?_cons_of_neg _ (by simp [hw]), List.find?_cons_of_neg _ (by simp [hw])]
          exact ih
  · rw [if_neg h, List.find?_append]
    have h2 : List.find? (fun p => p.1 == w) [(v, c)] = none := by
      simp [hvw]
    rw [h2]
    simp

theorem find?_foldl_setCol_ne (df : WideDF) (w : Nat) :
    ∀ (mapping : List (Nat × Nat)) (init : List (Nat × List Cell)),
      (∀ m ∈ mapping, m.2 ≠ w) →
      ((mapping.foldl (fun acc m => setCol acc m.2 (upgradeChangeCol df m.1 m.2)) init).find?
        (fun p => p.1 == w))
        = init.find? (fun p => p.1 == w) := by
  intro mapping
  induction mapping with
  | nil => intro init _; rfl
  | cons m t ih =>
    intro init hm
    rw [List.foldl_cons, ih _ (fun x hx => hm x (List.mem_cons_of_mem _ hx))]
    exact find?_setCol_ne init m.2 w _ (hm m (List.mem_cons_self _ _))

theorem foldl_setCol_lookup (df : WideDF) (o nw : Nat) :
    ∀ mapping : List (Nat × Nat), (mapping.map Prod.snd).Nodup → (o, nw) ∈ mapping →
    ∀ init : List (Nat × List Cell),
      ((mapping.foldl (fun acc m => setCol acc m.2 (upgradeChangeCol df m.1 m.2)) init).find?
        (fun p => p.1 == nw)) = some (nw, upgradeChangeCol df o nw) := by
  intro mapping
  induction mapping with
  | nil => intro _ hm; cases hm
  | cons m t ih =>
    intro hnd hm init
    rw [List.map_cons, List.nodup_cons] at hnd
    rw [List.foldl_cons]
    rcases List.mem_cons.mp hm with heq | hmt
    · subst heq
      rw [find?_foldl_setCol_ne df nw t _ (by
        intro x hx hx2
        apply hnd.1
        have hx3 : x.2 ∈ t.map Prod.snd := List.mem_map_of_mem Prod.snd hx
        simpa [hx2] using hx3)]
      exact find?_setCol_self init nw _
    · exact ih hnd.2 hmt _

/-- The column that the upgrade-change detector stores for a mapped new variable id. -/
theorem upgradeChange_col_eq (df : WideDF) (vids : List Nat) (mapping : List (Nat × Nat))
    (hnd : (mapping.map Prod.snd).Nodup) (o nw : Nat) (hm : (o, nw) ∈ mapping) :
    (upgradeChange df vids mapping).col nw = upgradeChangeCol df o nw := by
  unfold upgradeChange WideDF.col
  rw [foldl_setCol_lookup df o nw mapping hnd hm _]

/-- C5: for each `(old, new)` pair of the variable mapping, the upgrade-change detector
stores as the new id's score column the element-wise BARD of the old column against the
new one with the epsilon estimated from the new column only, and that score is null at
every row where the old or the new value is null. -/
theorem upgrade_change_column_spec (df : WideDF) (variable_ids : List Nat)
    (mapping : List (Nat × Nat)) (hWF : df.WF)
    (hnd : (mapping.map Prod.snd).Nodup) (o nw : Nat) (hm : (o, nw) ∈ mapping) :
    (upgradeChange df variable_ids mapping).col nw
      = List.zipWith (fun a b => bard a b (estimate_bard_epsilon (df.col nw)))
          (df.col o) (df.col nw) ∧
    ∀ i, i < df.keys.length →
      ((df.col o).getD i none = none ∨ (df.col nw).getD i none = none) →
      ((upgradeChange df variable_ids mapping).col nw).getD i none = none := by
  have hcol := upgradeChange_col_eq df variable_ids mapping hnd o nw hm
  constructor
  · rw [hcol]
    rfl
  · intro i hi hnull
    rw [hcol]
    unfold upgradeChangeCol
    have ho : (df.col o).length = df.keys.length := length_col df hWF o
    have hn : (df.col nw).length = df.keys.length := length_col df hWF nw
    rw [List.getD_eq_getElem?_getD, List.getElem?_zipWith,
      List.getElem?_eq_getElem (by omega : i < (df.col o).length),
      List.getElem?_eq_getElem (by omega : i < (df.col nw).length)]
    rcases hnull with h | h
    · have ha : (df.col o)[i] = none := by
        rwa [List.getD_eq_getElem?_getD,
          List.getElem?_eq_getElem (by omega : i < (df.col o).length),
          Option.getD_some] at h
      simp [ha, bard_none_left]
    · have hb2 : (df.col nw)[i] = none := by
        rwa [List.getD_eq_getElem?_getD,
          List.getElem?_eq_getElem (by omega : i < (df.col nw).length),
          Option.getD_some] at h
      simp [hb2, bard_none_right]

def dfW5 : WideDF :=
  ⟨[("A", 1), ("A", 2), ("A", 3)],
    [(1, [some 1, none, some 4]), (2, [some 2, some 3, none])]⟩

theorem upgrade_change_column_spec_witness :
    (upgradeChange dfW5 [2] [(1, 2)]).col 2
      = List.zipWith (fun a b => bard a b (estimate_bard_epsilon (dfW5.col 2)))
          (dfW5.col 1) (dfW5.col 2) ∧
    ((upgradeChange dfW5 [2] [(1, 2)]).col 2).getD 1 none = none :=
  ⟨(upgrade_change_column_spec dfW5 [2] [(1, 2)] (by decide) (by decide) 1 2 (by decide)).1,
   (upgrade_change_column_spec dfW5 [2] [(1, 2)] (by decide) (by decide) 1 2 (by decide)).2
      1 (by decide) (Or.inl (by decide))⟩

def dfC : WideDF :=
  ⟨[("A", 2000), ("A", 2001)], [(1, [some 1, some 5]), (2, [some 5, some 5])]⟩

unseal Rat.add Rat.mul Rat.sub Rat.inv Rat.ofScientific in
/-- C9 counterexample: on a table whose new column is the duplicate-valued series
`[5, 5]`, the estimated epsilon is 0 and it is passed straight into the BARD distance:
the detector produces an undefined (null) score at row 0 even though both the old value
(1) and the new value (5) are present there — no degenerate-scale handling exists. -/
theorem upgrade_change_eps_zero_counterexample :
    estimate_bard_epsilon (dfC.col 2) = some 0 ∧
    (dfC.col 1).getD 0 none = some 1 ∧ (dfC.col 2).getD 0 none = some 5 ∧
    ((upgradeChange dfC [2] [(1, 2)]).col 2).getD 0 none = none :=
  ⟨by decide, by decide, by decide, by decide⟩

/-- C9 (amended): the upgrade-change detector performs no degenerate-scale check: the
estimated epsilon is passed unconditionally into the BARD distance, so whenever the new
column's epsilon estimate is 0 every score of that pair is undefined (null in the
model), even at rows where both values are present. -/
theorem upgrade_change_eps_zero_propagates (df : WideDF) (variable_ids : List Nat)
    (mapping : List (Nat × Nat)) (hWF : df.WF)
    (hnd : (mapping.map Prod.snd).Nodup) (o nw : Nat) (hm : (o, nw) ∈ mapping)
    (heps : estimate_bard_epsilon (df.col nw) = some 0)
    (i : Nat) (hi : i < df.keys.length) :
    ((upgradeChange df variable_ids mapping).col nw).getD i none = none := by
  have hcol := upgradeChange_col_eq df variable_ids mapping hnd o nw hm
  rw [hcol]
  unfold upgradeChangeCol
  simp only [heps]
  have ho : (df.col o).length = df.keys.length := length_col df hWF o
  have hn : (df.col nw).length = df.keys.length := length_col df hWF nw
  rw [List.getD_eq_getElem?_getD, List.getElem?_zipWith,
    List.getElem?_eq_getElem (by omega : i < (df.col o).length),
    List.getElem?_eq_getElem (by omega : i < (df.col nw).length)]
  have hb : ∀ a b : Cell, bard a b (some 0) = none := by
    intro a b
    cases a <;> cases b <;> simp [bard]
  simp [hb]

unseal Rat.add Rat.mul Rat.sub Rat.inv Rat.ofScientific in
theorem upgrade_change_eps_zero_propagates_witness :
    ((upgradeChange dfC [2] [(1, 2)]).col 2).getD 1 none = none :=
  upgrade_change_eps_zero_propagates dfC [2] [(1, 2)] (by decide) (by decide) 1 2
    (by decide) (by decide) 1 (by decide)

end Anomalist

namespace Anomalist

/-! ### The missing-on-upgrade detector (claim C6) -/

theorem find?_map_locRepl (v : Nat) (mask : List Bool) :
    ∀ (cols : List (Nat × List Cell)) (c0 : List Cell),
      cols.find? (fun p => p.1 == v) = some (v, c0) →
      (cols.map (fun p => if p.1 == v
          then (v, List.zipWith (fun m c => if m then some 1 else c) mask p.2)
          else p)).find? (fun p => p.1 == v)
        = some (v, List.zipWith (fun m c => if m then some 1 else c) mask c0) := by
  intro cols
  induction cols with
  | nil => intro c0 h; simp at h
  | cons q t ih =>
    intro c0 h
    rw [List.map_cons]
    by_cases hq : q.1 = v
    · have h1 : (q.1 == v) = true := by simp [hq]
      simp only [List.find?_cons, h1] at h
      injection h with h
      subst h
      simp
    · have h1 : (q.1 == v) = false := by simp [hq]
      simp only [List.find?_cons, h1] at h
      rw [if_neg (by simp [h1]), List.find?_cons_of_neg _ (by simp [h1])]
      exact ih c0 h

theorem find?_locSetOnes_found (cols : List (Nat × List Cell)) (v : Nat) (mask : List Bool)
    (c0 : List Cell) (h : cols.find? (fun p => p.1 == v) = some (v, c0)) :
    (locSetOnes cols v mask).find? (fun p => p.1 == v)
      = some (v, List.zipWith (fun m c => if m then some 1 else c) mask c0) := by
  unfold locSetOnes
  rw [if_pos (List.any_eq_true.mpr ⟨(v, c0), List.mem_of_find?_eq_some h, by simp⟩)]
  exact find?_map_locRepl v mask cols c0 h

theorem find?_locSetOnes_ne (cols : List (Nat × List Cell)) (v w : Nat) (mask : List Bool)
    (hvw : v ≠ w) :
    (locSetOnes cols v mask).find? (fun p => p.1 == w)
      = cols.find? (fun p => p.1 == w) := by
  unfold locSetOnes
  by_cases h : cols.any (fun p => p.1 == v)
  · rw [if_pos h]
    clear h
    induction cols with
    | nil => rfl
    | cons q t ih =>
      rw [List.map_cons]
      by_cases hq : q.1 = v
      · have h1 : (q.1 == v) = true := by simp [hq]
        rw [if_pos h1, List.find?_cons_of_neg _ (by simp [hvw]),
          List.find?_cons_of_neg _ (by simp [hq, hvw])]
        exact ih
      · have h1 : (q.1 == v) = false := by simp [hq]
        rw [if_neg (by simp [h1])]
        by_cases hw : q.1 = w
        · rw [List.find?_cons_of_pos _ (by simp [hw]), List.find?_cons_of_pos _ (by simp [hw])]
        · rw [List.find?_cons_of_neg _ (by simp [hw]), List.find?_cons_of_neg _ (by simp [hw])]
          exact ih
  · rw [if_neg h, List.find?_append]
    simp [hvw]

theorem find?_foldl_locSet_ne (df : WideDF) (w : Nat) :
    ∀ (mapping : List (Nat × Nat)) (init : List (Nat × List Cell)),
      (∀ m ∈ mapping, m.2 ≠ w) →
      ((mapping.foldl (fun acc m => locSetOnes acc m.2 (lostMask df m.1 m.2)) init).find?
        (fun p => p.1 == w))
        = init.find? (fun p => p.1 == w) := by
  intro mapping
  induction mapping with
  | nil => intro init _; rfl
  | cons m t ih =>
    intro init hm
    rw [List.foldl_cons, ih _ (fun x hx => hm x (List.mem_cons_of_mem _ hx))]
    exact find?_locSetOnes_ne init m.2 w _ (hm m (List.mem_cons_self _ _))

theorem foldl_locSet_lookup (df : WideDF) (o nw : Nat) :
    ∀ mapping : List (Nat × Nat), (mapping.map Prod.snd).Nodup → (o, nw) ∈ mapping →
    ∀ (init : List (Nat × List Cell)) (c0 : List Cell),
      init.find? (fun p => p.1 == nw) = some (nw, c0) →
      ((mapping.foldl (fun acc m => locSetOnes acc m.2 (lostMask df m.1 m.2)) init).find?
        (fun p => p.1 == nw))
        = some (nw, List.zipWith (fun m c => if m then some 1 else c)
            (lostMask df o nw) c0) := by
  intro mapping
  induction mapping with
  | nil => intro _ hm; cases hm
  | cons m t ih =>
    intro hnd hm init c0 hinit
    rw [List.map_cons, List.nodup_cons] at hnd
    rw [List.foldl_cons]
    rcases List.mem_cons.mp hm with heq | hmt
    · subst heq
      rw [find?_foldl_locSet_ne df nw t _ (by
        intro x hx hx2
        apply hnd.1
        have hx3 : x.2 ∈ t.map Prod.snd := List.mem_map_of_mem Prod.snd hx
        simpa [hx2] using hx3)]
      exact find?_locSetOnes_found init nw (lostMask df o nw) c0 hinit
    · apply ih hnd.2 hmt
      rw [find?_locSetOnes_ne init m.2 nw _ (by
        intro h2
        apply hnd.1
        have hx3 : (Prod.snd (o, nw) : Nat) ∈ t.map Prod.snd :=
          List.mem_map_of_mem Prod.snd hmt
        simpa [h2] using hx3)]
      exact hinit

theorem find?_zerosCols (vids : List Nat) (n : Nat) (v : Nat) (hv : v ∈ vids) :
    (zerosCols vids n).find? (fun p => p.1 == v)
      = some (v, List.replicate n (some 0)) := by
  unfold zerosCols
  exact find?_map_pairs vids (fun _ => List.replicate n (some 0)) v hv

theorem any_locSetOnes (cols : List (Nat × List Cell)) (v w : Nat) (mask : List Bool)
    (h : cols.any (fun p => p.1 == w) = true) :
    (locSetOnes cols v mask).any (fun p => p.1 == w) = true := by
  unfold locSetOnes
  by_cases hv : cols.any (fun p => p.1 == v)
  · rw [if_pos hv]
    rw [List.any_map]
    rcases List.any_eq_true.mp h with ⟨x, hx, hpx⟩
    apply List.any_eq_true.mpr
    refine ⟨x, hx, ?_⟩
    by_cases hxv : x.1 = v
    · simpa [Function.comp, hxv] using hpx
    · simpa [Function.comp, hxv] using hpx
  · rw [if_neg hv, List.any_append, h]
    simp

theorem binary_locSetOnes (cols : List (Nat × List Cell)) (v : Nat) (mask : List Bool)
    (hbin : ∀ p ∈ cols, ∀ c ∈ p.2, c = some 0 ∨ c = some 1)
    (hv : cols.any (fun p => p.1 == v) = true) :
    ∀ p ∈ locSetOnes cols v mask, ∀ c ∈ p.2, c = some 0 ∨ c = some 1 := by
  unfold locSetOnes
  rw [if_pos hv]
  intro p hp c hc
  rcases List.mem_map.mp hp with ⟨q, hq, rfl⟩
  by_cases hqv : q.1 = v
  · simp only [hqv, beq_self_eq_true, if_true] at hc
    rcases exists_of_mem_zipWith hc with ⟨m, x, hm, hx2, rfl⟩
    cases m
    · simpa using hbin q hq x hx2
    · simp
  · have h1 : (q.1 == v) = false := by simp [hqv]
    simp only [h1, Bool.false_eq_true, if_false] at hc
    exact hbin q hq c hc

/-- Every cell any fold of masked-one assignments produces over a zero frame covering
the touched columns is 0 or 1. -/
theorem upgradeMissing_cells_binary (df : WideDF) (vids : List Nat)
    (mapping : List (Nat × Nat)) (hsub : ∀ m ∈ mapping, m.2 ∈ vids) :
    ∀ p ∈ (upgradeMissing df vids mapping).cols, ∀ c ∈ p.2,
      c = some 0 ∨ c = some 1 := by
  unfold upgradeMissing
  have h : ∀ (mp : List (Nat × Nat)), (∀ m ∈ mp, m.2 ∈ vids) →
      ∀ init : List (Nat × List Cell),
      (∀ u ∈ vids, init.any (fun p => p.1 == u) = true) →
      (∀ p ∈ init, ∀ c ∈ p.2, c = some 0 ∨ c = some 1) →
      ∀ p ∈ mp.foldl (fun acc m => locSetOnes acc m.2 (lostMask df m.1 m.2)) init,
        ∀ c ∈ p.2, c = some 0 ∨ c = some 1 := by
    intro mp
    induction mp with
    | nil => intro _ init _ hbin; simpa using hbin
    | cons m t ih =>
      intro hsub2 init hcover hbin
      rw [List.foldl_cons]
      apply ih (fun x hx => hsub2 x (List.mem_cons_of_mem _ hx))
      · intro u hu
        exact any_locSetOnes init m.2 u _ (hcover u hu)
      · exact binary_locSetOnes init m.2 _ hbin
          (hcover m.2 (hsub2 m (List.mem_cons_self _ _)))
  apply h mapping hsub
  · intro u hu
    exact List.any_eq_true.mpr
      ⟨(u, List.replicate df.keys.length (some 0)),
        List.mem_of_find?_eq_some (find?_zerosCols vids df.keys.length u hu), by simp⟩
  · intro p hp c hc
    unfold zerosCols at hp
    rcases List.mem_map.mp hp with ⟨u, hu, rfl⟩
    exact Or.inl (List.eq_of_mem_replicate hc)

/-- C6: for each `(old, new)` pair of the variable mapping, the missing-on-upgrade
detector's score column for the new id is 1 exactly at rows where the old cell has data
and the new cell is null, and 0 at every other row; every cell of the returned frame is
0 or 1, and no epsilon or distance computation is involved. -/
theorem upgrade_missing_column_spec (df : WideDF) (variable_ids : List Nat)
    (mapping : List (Nat × Nat)) (hWF : df.WF)
    (hnd : (mapping.map Prod.snd).Nodup)
    (hsub : ∀ m ∈ mapping, m.2 ∈ variable_ids)
    (o nw : Nat) (hm : (o, nw) ∈ mapping) :
    (∀ i, i < df.keys.length →
      ((upgradeMissing df variable_ids mapping).col nw).getD i none
        = (if ((df.col o).getD i none).isSome ∧ (df.col nw).getD i none = none
            then some 1 else some 0)) ∧
    (∀ p ∈ (upgradeMissing df variable_ids mapping).cols, ∀ c ∈ p.2,
      c = some 0 ∨ c = some 1) := by
  constructor
  · intro i hi
    have hcol : (upgradeMissing df variable_ids mapping).col nw
        = List.zipWith (fun m c => if m then some 1 else c) (lostMask df o nw)
            (List.replicate df.keys.length (some 0)) := by
      unfold upgradeMissing WideDF.col
      rw [foldl_locSet_lookup df o nw mapping hnd hm _ _
        (find?_zerosCols variable_ids df.keys.length nw (hsub _ hm))]
    rw [hcol]
    have ho : (df.col o).length = df.keys.length := length_col df hWF o
    have hn : (df.col nw).length = df.keys.length := length_col df hWF nw
    have hoe : (df.col o).getD i none = (df.col o)[i] := by
      rw [List.getD_eq_getElem?_getD,
        List.getElem?_eq_getElem (by omega : i < (df.col o).length), Option.getD_some]
    have hne2 : (df.col nw).getD i none = (df.col nw)[i] := by
      rw [List.getD_eq_getElem?_getD,
        List.getElem?_eq_getElem (by omega : i < (df.col nw).length), Option.getD_some]
    rw [hoe, hne2, List.getD_eq_getElem?_getD, List.getElem?_zipWith]
    unfold lostMask
    rw [List.getElem?_zipWith,
      List.getElem?_eq_getElem (by omega : i < (df.col o).length),
      List.getElem?_eq_getElem (by omega : i < (df.col nw).length),
      List.getElem?_eq_getElem
        (by simp; omega : i < (List.replicate df.keys.length (some (0 : ℚ))).length),
      List.getElem_replicate]
    cases ha : (df.col o)[i] <;> cases hb : (df.col nw)[i] <;> simp
  · exact upgradeMissing_cells_binary df variable_ids mapping hsub

def dfM : WideDF :=
  ⟨[("A", 2000), ("A", 2001), ("A", 2002)],
    [(1, [some 5, none, some 3]), (2, [none, none, some 7])]⟩

theorem upgrade_missing_column_spec_witness :
    ((upgradeMissing dfM [1, 2] [(1, 2)]).col 2).getD 0 none = some 1 ∧
    ((upgradeMissing dfM [1, 2] [(1, 2)]).col 2).getD 1 none = some 0 ∧
    ∀ p ∈ (upgradeMissing dfM [1, 2] [(1, 2)]).cols, ∀ c ∈ p.2,
      c = some 0 ∨ c = some 1 := by
  have h := upgrade_missing_column_spec dfM [1, 2] [(1, 2)] (by decide) (by decide)
    (by decide) 1 2 (by decide)
  refine ⟨?_, ?_, h.2⟩
  · rw [h.1 0 (by decide)]
    decide
  · rw [h.1 1 (by decide)]
    decide

end Anomalist
